import Mathlib

/-!
Verification development for the AmFIBia FIB-SEM milling application.

The definitions below are a shallow embedding, in Lean, of the control and
data algorithms of the application: the pattern-group data model
(`src/CustomPatterns.py`), the task builder and milling orchestrator
(`AmFibia.py`, class `MainWindow`), and the alignment engine
(`src/AutoscriptHelpers.py`, class `fibsem`).

Modelling conventions:
* Python floats are modelled as rationals (`ℚ`); all float arithmetic in the
  embedded code is exact (additions, subtractions, divisions by constants),
  so no rounding model is needed for the properties proved here.
* Python attribute access that can raise `AttributeError` (for instance
  `pg.milled_status` on a dataclass that never defines that field, or
  `data["image"].metadata` when the position has no image) is modelled with
  `Option`: `none` is the raised exception, which aborts the whole call.
* Hardware driver calls (stage moves, image captures, milling) are modelled
  by oracles passed in as arguments: a boolean success value per call, and a
  matcher function producing a confidence and an offset per correlation
  call, exactly as the vendor driver would.
* Image payloads (pixel rasters) are modelled as `List (List ℤ)` grids where
  the code manipulates them (template size adjustment); elsewhere only their
  metadata (dimensions, field of view) is kept.
-/

namespace AmFIBia

/-- Milling lifecycle status values of a `PatternGroup`.  The Python source
stores these as the strings of the same names; the set of values ever
assigned is exactly these four. -/
inductive Status where
  | pending
  | busy
  | done
  | failed
deriving DecidableEq, Repr

/-- Stage coordinates dictionary `{x, y, z, r, t}` (meters / radians). -/
structure Coords where
  x : ℚ
  y : ℚ
  z : ℚ
  r : ℚ
  t : ℚ
deriving DecidableEq, Repr

/-- The `PatternGroup` dataclass of `src/CustomPatterns.py` (lines 718-777).
Its dataclass fields are `patterns`, `milling_current`, `color`,
`sequential_group` and `delay`.  The Python class declares NO
`milled_status` field: that attribute only ever appears on an instance via
a later plain attribute assignment (status dropdown, context menu, or the
run loop).  We therefore carry it as an `Option Status`, where `none`
models the absent attribute (reading it raises `AttributeError`).
The patterns dictionary is modelled by its list of pattern ids. -/
structure PatternGroup where
  patterns : List ℕ
  milling_current : ℚ
  color : ℕ × ℕ × ℕ
  sequential_group : ℕ
  delay : ℕ
  milled_status : Option Status
deriving DecidableEq, Repr

/-- The dataclass constructor `PatternGroup(patterns=…, milling_current=…,
color=…, sequential_group=…, delay=…)`: it initialises exactly the five
declared fields, so the `milled_status` attribute does not exist on the
fresh object. -/
def PatternGroup.init (patterns : List ℕ) (milling_current : ℚ)
    (color : ℕ × ℕ × ℕ) (sequential_group : ℕ) (delay : ℕ) : PatternGroup :=
  ⟨patterns, milling_current, color, sequential_group, delay, none⟩

/-- Predefined colors for `PatternGroup` (CustomPatterns.py lines 709-715). -/
def PATTERN_GROUP_COLORS : List (ℕ × ℕ × ℕ) :=
  [(255, 255, 0), (255, 0, 0), (0, 100, 255), (255, 165, 0), (0, 200, 0)]

/-- `PatternGroup.create_with_index` (CustomPatterns.py lines 739-767).
The random color drawn for indices beyond the predefined palette is passed
in as the oracle `randColor`. -/
def PatternGroup.create_with_index (patterns : List ℕ) (milling_current : ℚ)
    (index : ℕ) (randColor : ℕ × ℕ × ℕ) (sequential_group : ℕ) (delay : ℕ) :
    PatternGroup :=
  let color :=
    match PATTERN_GROUP_COLORS.get? index with
    | some c => c
    | none => randColor
  PatternGroup.init patterns milling_current color sequential_group delay

/-- `PatternGroup.clone` (CustomPatterns.py lines 769-777): a deep copy
built by calling the dataclass constructor with the five declared fields.
Any `milled_status` instance attribute of the source object is not among
them, so the clone does not have it. -/
def PatternGroup.clone (g : PatternGroup) : PatternGroup :=
  PatternGroup.init g.patterns g.milling_current g.color g.sequential_group
    g.delay

/-- `load_patterns_for_display` (CustomPatterns.py lines 780-834).  The
`.ptf` file parser is an external collaborator; the ids of the parsed
patterns are passed in as `raw_patterns`.  `sequential_group` and `delay`
are left at their dataclass defaults (0). -/
def load_patterns_for_display (raw_patterns : List ℕ) (milling_current : ℚ)
    (group_index : ℕ) (randColor : ℕ × ℕ × ℕ) : PatternGroup :=
  PatternGroup.create_with_index raw_patterns milling_current group_index
    randColor 0 0

/-- `convert_xT_patterns_to_displayable` (CustomPatterns.py lines 837-879):
the patterns dictionary is keyed by `enumerate`, hence ids `0, …, n-1`. -/
def convert_xT_patterns_to_displayable (xT_patterns_count : ℕ)
    (milling_current : ℚ) (group_index : ℕ) (randColor : ℕ × ℕ × ℕ) :
    PatternGroup :=
  PatternGroup.create_with_index (List.range xT_patterns_count)
    milling_current group_index randColor 0 0

/-- The metric tracking-area dictionary produced by
`DrawableImage._get_tracking_area_m` (AmFibia.py lines 1170-1198): meters
relative to the image center, metric Y-up. -/
structure TrackingAreaM where
  left : ℚ
  right : ℚ
  top : ℚ
  bottom : ℚ
  width : ℚ
  height : ℚ
  center_x : ℚ
  center_y : ℚ
deriving DecidableEq, Repr

/-- A pixel-space rectangle (`QRect`): integer left/top/right/bottom,
origin top-left, Y-down. -/
structure PixRect where
  left : ℤ
  top : ℤ
  right : ℤ
  bottom : ℤ
deriving DecidableEq, Repr

/-- `DrawableImage._get_tracking_area_m` (AmFibia.py lines 1170-1198):
convert the pixel tracking rectangle to meters relative to the image
center, flipping Y. -/
def get_tracking_area_m (rect : PixRect) (img_w img_h : ℕ)
    (pixel_to_m : ℚ) : TrackingAreaM :=
  let center_x : ℚ := (img_w : ℚ) / 2
  let center_y : ℚ := (img_h : ℚ) / 2
  let left_m := ((rect.left : ℚ) - center_x) * pixel_to_m
  let right_m := ((rect.right : ℚ) - center_x) * pixel_to_m
  let top_m := (center_y - (rect.top : ℚ)) * pixel_to_m
  let bottom_m := (center_y - (rect.bottom : ℚ)) * pixel_to_m
  { left := left_m
    right := right_m
    top := top_m
    bottom := bottom_m
    width := |right_m - left_m|
    height := |top_m - bottom_m|
    center_x := (left_m + right_m) / 2
    center_y := (top_m + bottom_m) / 2 }

/-- The fractional (0-1) reduced-area rectangle handed to the device. -/
structure RelArea where
  left : ℚ
  top : ℚ
  width : ℚ
  height : ℚ
deriving DecidableEq, Repr

/-- `relative_coords` (AmFibia.py lines 3521-3530): convert the metric
tracking area to fractions of the field of view. -/
def relative_coords (tracking_area : Option TrackingAreaM)
    (fov_width fov_height : ℚ) : Option RelArea :=
  match tracking_area with
  | none => none
  | some ta =>
      some
        { width := ta.width / fov_width
          height := ta.height / fov_height
          left := 1 / 2 + ta.left / fov_width
          top := 1 / 2 - ta.top / fov_height }

/-- Field-of-view metadata of a position's reference image
(`data["image"].metadata.optics.scan_field_of_view`). -/
structure ImgMeta where
  fov_width : ℚ
  fov_height : ℚ
deriving DecidableEq, Repr

/-- The per-position data dictionary, restricted to the keys the task
builder and orchestrator read: `coords`, `image` (which is `None` until an
ion-beam image is captured), `tracking_area` and `patterns`. -/
structure Position where
  coords : Coords
  image : Option ImgMeta
  tracking_area : Option TrackingAreaM
  patterns : List PatternGroup
deriving DecidableEq, Repr

/-- A milling `Task` (AmFibia.py lines 3509-3519), restricted to the fields
the orchestrator reads; the reference-image payloads (`image`, `ref_image`)
are view-layer data and are not modelled. -/
structure Task where
  pattern_group : PatternGroup
  coords : Coords
  tracking_area : Option RelArea
  sequential_group : ℕ
  position_index : ℕ
deriving DecidableEq, Repr

/-- First pass of `MainWindow.build_task_list` (AmFibia.py lines 3202-3209):
the maximum `sequential_group` over all pattern groups of all positions,
starting from 0. -/
def max_sequential_group (positions : List Position) : ℕ :=
  positions.foldl
    (fun acc pos =>
      pos.patterns.foldl (fun a pg => max a pg.sequential_group) acc) 0

/-- Inner loop of `build_task_list` (AmFibia.py lines 3219-3238) over the
pattern groups of one position, for one sequential group `sg`: skip groups
of another sequential group, skip empty groups, read `milled_status`
(raising `AttributeError`, modelled as `none`, when the attribute was never
assigned), skip non-pending groups, and emit one task for the rest. -/
def tasksForGroups (sg i : ℕ) (pos : Position) :
    List PatternGroup → Option (List Task)
  | [] => some []
  | pg :: rest =>
    if pg.sequential_group ≠ sg then tasksForGroups sg i pos rest
    else if pg.patterns.length = 0 then tasksForGroups sg i pos rest
    else
      match pg.milled_status with
      | none => none
      | some st =>
          if st ≠ Status.pending then tasksForGroups sg i pos rest
          else
            match pos.image with
            | none => none
            | some im =>
                (tasksForGroups sg i pos rest).map
                  (fun acc =>
                    { pattern_group := pg
                      coords := pos.coords
                      tracking_area :=
                        relative_coords pos.tracking_area im.fov_width
                          im.fov_height
                      sequential_group := sg
                      position_index := i } :: acc)

/-- Middle loop of `build_task_list` (AmFibia.py lines 3214-3238) over the
positions in stored order, for one sequential group.  The field-of-view
metadata of the position's image is read before its groups are scanned
(AmFibia.py lines 3217-3218); a position without an image raises
`AttributeError` (`none`). -/
def tasksForSg (sg : ℕ) : List Position → ℕ → Option (List Task)
  | [], _ => some []
  | pos :: rest, i =>
      match pos.image with
      | none => none
      | some _ =>
          match tasksForGroups sg i pos pos.patterns with
          | none => none
          | some ts => (tasksForSg sg rest (i + 1)).map (ts ++ ·)

/-- Outer loop of `build_task_list` (AmFibia.py line 3213) over the
sequential groups `0 … max_sequential_group`. -/
def buildTaskListAux (positions : List Position) :
    List ℕ → Option (List Task)
  | [] => some []
  | sg :: sgs =>
      match tasksForSg sg positions 0 with
      | none => none
      | some ts => (buildTaskListAux positions sgs).map (ts ++ ·)

/-- `MainWindow.build_task_list` (AmFibia.py lines 3201-3240). -/
def build_task_list (positions : List Position) : Option (List Task) :=
  buildTaskListAux positions (List.range (max_sequential_group positions + 1))

/-- Statuses read by `MainWindow.rebuild_positions` (AmFibia.py line 3173):
`[pg.milled_status for pg in pattern_groups]`, raising `AttributeError`
(`none`) on any group whose attribute was never assigned. -/
def rebuild_positions_statuses (pattern_groups : List PatternGroup) :
    Option (List Status) :=
  pattern_groups.mapM (fun pg => pg.milled_status)

/-- An `AdornedImage`: declared pixel dimensions plus the raster grid (rows
of pixel values). -/
structure ImageG where
  height : ℕ
  width : ℕ
  data : List (List ℤ)
deriving DecidableEq, Repr

/-- Append `k` entries of end-of-list mirror reflection, after the manner
of `np.pad(_, (0, k), mode="reflect")`: the appended entries are the last
but one, last but two, … entries (the edge itself is not repeated). -/
def padReflectEnd {α : Type} (k : ℕ) (l : List α) : List α :=
  l ++ (l.reverse.drop 1).take k

/-- `fibsem._adjust_template_size` (AutoscriptHelpers.py lines 388-440):
return the template unchanged when the sizes agree; raise `ValueError`
(`none`) when any axis differs by more than 1 pixel; otherwise mirror-pad
the smaller axis of the template or crop the larger one to the live
image's size.  The resulting `AdornedImage` takes its dimensions from the
adjusted raster. -/
def adjust_template_size (current_img template : ImageG) : Option ImageG :=
  if current_img.width = template.width ∧
      current_img.height = template.height then
    some template
  else
    let width_diff := ((current_img.width : ℤ) - template.width).natAbs
    let height_diff := ((current_img.height : ℤ) - template.height).natAbs
    if 1 < width_diff ∨ 1 < height_diff then none
    else
      let d0 := template.data
      let d1 :=
        if template.height < current_img.height then
          padReflectEnd (current_img.height - template.height) d0
        else if current_img.height < template.height then
          d0.take current_img.height
        else d0
      let d2 :=
        if template.width < current_img.width then
          d1.map (padReflectEnd (current_img.width - template.width))
        else if current_img.width < template.width then
          d1.map (fun row => row.take current_img.width)
        else d1
      some { height := d2.length, width := (d2.headD []).length, data := d2 }

/-- Result of one `vision_toolkit.locate_feature` call: a confidence score
and the offset `center_in_meters` of the match. -/
structure LocateResult where
  confidence : ℚ
  x : ℚ
  y : ℚ
deriving DecidableEq, Repr

/-- `MIN_ALIGNMENT_DISTANCE = 82.9e-06/3072/2` (AutoscriptHelpers.py
line 30). -/
def MIN_ALIGNMENT_DISTANCE : ℚ := 829 / 10000000 / 3072 / 2

/-- Squared length of the correction vector `(x, y) = (-l.x, -l.y)`.  The
source compares the Euclidean distance `sqrt (x² + y²)` against the
nonnegative thresholds `MIN_ALIGNMENT_DISTANCE` and `1e-05`; comparing
squares against squared thresholds is equivalent (`sqrt` is monotone), and
keeps the embedding inside `ℚ`. -/
def distSq (l : LocateResult) : ℚ := (-l.x) * (-l.x) + (-l.y) * (-l.y)

/-- Mutable state of one `fibsem.align` call: the beam-shift register, the
accumulated relative stage correction, and `move_count`. -/
structure AlignState where
  beam_shift : ℚ × ℚ
  stage : ℚ × ℚ
  move_count : ℕ
deriving DecidableEq, Repr

/-- The correction loop of `fibsem.align` (AutoscriptHelpers.py lines
325-375): `while l.confidence < 0.98 and move_count < 5`, breaking early
when the residual distance drops below `MIN_ALIGNMENT_DISTANCE`, issuing a
stage move (sign depending on the scan rotation) with beam-shift reset for
residuals above `1e-05`, and an incremental beam shift otherwise.  The
matcher oracle gives the `locate_feature` result after the `k`-th move;
the structural `fuel` argument (called with 6, one more than the budget)
only bounds the recursion — every exit is decided by the source's own
guards, since `move_count` rises by 1 per iteration from 0 and the guard
`move_count < 5` fails at the latest when the fuel runs out. -/
def alignLoop (matcher : ℕ → LocateResult) (rotZero : Bool) :
    ℕ → LocateResult → AlignState → AlignState
  | 0, _, s => s
  | fuel + 1, l, s =>
    if l.confidence < 98 / 100 ∧ s.move_count < 5 then
      if distSq l < MIN_ALIGNMENT_DISTANCE * MIN_ALIGNMENT_DISTANCE then s
      else
        let x := -l.x
        let y := -l.y
        let s1 :=
          if 1 / 100000 * (1 / 100000) < distSq l then
            if rotZero then
              { s with
                stage := (s.stage.1 - x, s.stage.2 - y)
                beam_shift := ((0 : ℚ), (0 : ℚ)) }
            else
              { s with
                stage := (s.stage.1 + x, s.stage.2 + y)
                beam_shift := ((0 : ℚ), (0 : ℚ)) }
          else
            { s with
              beam_shift := (s.beam_shift.1 + x, s.beam_shift.2 + y) }
        let mc := s.move_count + 1
        alignLoop matcher rotZero fuel (matcher mc) { s1 with move_count := mc }
    else s

/-- `fibsem.align` (AutoscriptHelpers.py lines 274-386).  The live capture
`current_img` is the image the hardware would return; the template-size
adjustment failure (`ValueError`) makes the call return `False`; otherwise
the correction loop runs and the call returns `True` — there is no
post-loop convergence check.  Driver exceptions other than the size
mismatch are not modelled (the hardware oracle always answers). -/
def align (current_img template : ImageG) (matcher : ℕ → LocateResult)
    (rotZero reset_beam_shift : Bool) (bs0 : ℚ × ℚ) : Bool × AlignState :=
  let bs1 := if reset_beam_shift then ((0 : ℚ), (0 : ℚ)) else bs0
  match adjust_template_size current_img template with
  | none => (false, ⟨bs1, ((0 : ℚ), (0 : ℚ)), 0⟩)
  | some _ =>
      let l0 := matcher 0
      let final := alignLoop matcher rotZero 6 l0 ⟨bs1, ((0 : ℚ), (0 : ℚ)), 0⟩
      (true, final)

/-- The pattern variants dispatched on by `fibsem._create_xT_pattern`
(AutoscriptHelpers.py lines 487-623); `unknown` stands for any other class
name, for which no device pattern is created. -/
inductive PatternType where
  | rectangle
  | line
  | polygon
  | circle
  | regularCrossSection
  | cleaningCrossSection
  | stream
  | bitmap
  | unknown
deriving DecidableEq, Repr

/-- A source pattern as handed to `_create_xT_pattern`, restricted to the
fields the depth-clamping logic touches. -/
structure SourcePattern where
  ptype : PatternType
  depth : ℚ
deriving DecidableEq, Repr

/-- A device (xT) pattern: `create_stream` takes no depth argument, every
other `create_*` call receives the pattern's depth. -/
structure XTPattern where
  ptype : PatternType
  depth : Option ℚ
deriving DecidableEq, Repr

/-- `fibsem._create_xT_pattern` (AutoscriptHelpers.py lines 487-623),
restricted to the depth logic: first `if pattern.depth <= 0:
pattern.depth = 1e-9` mutates the pattern, then the dispatch on the
pattern's class name — which the depth mutation cannot change — creates
the device pattern (or `None` for an unknown type).  Returns the mutated
pattern together with the created device pattern. -/
def create_xT_pattern (pattern : SourcePattern) :
    SourcePattern × Option XTPattern :=
  let p1 :=
    if pattern.depth ≤ 0 then { pattern with depth := 1 / 1000000000 }
    else pattern
  let xt : Option XTPattern :=
    match pattern.ptype with
    | PatternType.rectangle => some ⟨PatternType.rectangle, some p1.depth⟩
    | PatternType.line => some ⟨PatternType.line, some p1.depth⟩
    | PatternType.polygon => some ⟨PatternType.polygon, some p1.depth⟩
    | PatternType.circle => some ⟨PatternType.circle, some p1.depth⟩
    | PatternType.regularCrossSection =>
        some ⟨PatternType.regularCrossSection, some p1.depth⟩
    | PatternType.cleaningCrossSection =>
        some ⟨PatternType.cleaningCrossSection, some p1.depth⟩
    | PatternType.stream => some ⟨PatternType.stream, none⟩
    | PatternType.bitmap => some ⟨PatternType.bitmap, some p1.depth⟩
    | PatternType.unknown => none
  (p1, xt)

/-- `MAX_DELAY_NO_HOME = 300` seconds (AmFibia.py line 27). -/
def MAX_DELAY_NO_HOME : ℕ := 300

/-- Hardware-oracle answers for the driver calls one task can make in the
milling loop (AmFibia.py lines 3384-3471): success of the absolute stage
move, of the low-current alignment, of the milling-current alignment, and
of the milling call. -/
structure HWEnv where
  moveOk : Bool
  alignLowOk : Bool
  alignMillOk : Bool
  millOk : Bool
deriving DecidableEq, Repr

/-- Observable events of the milling loop, in program order: reads of the
`_milling_stopped` cancellation flag, status assignments to the current
task's pattern group, the delay sleep and the optional low-power sleep
mode preceding it, and the hardware calls. -/
inductive Ev where
  | checkStop (v : Bool)
  | setStatus (idx : ℕ) (s : Status)
  | sleepSecs (n : ℕ)
  | sleepMode
  | moveStage (ok : Bool)
  | alignLow (ok : Bool)
  | alignMill (ok : Bool)
  | mill (ok : Bool)
deriving DecidableEq, Repr

/-- The fine-alignment and milling tail of one loop iteration (AmFibia.py
lines 3442-3471): run the milling-current alignment on the reduced area,
check the cancellation flag (break), check the alignment result
(continue), mill, check the milling result (continue), check the
cancellation flag (break), and otherwise mark the group `done`.  Returns
the emitted events, the final status of the task's group, whether the
loop `break`s, and the next cancellation-flag read index. -/
def fineStep (stopF : ℕ → Bool) (rc idx : ℕ) (env : HWEnv) :
    List Ev × Status × Bool × ℕ :=
  let ev1 := [Ev.alignMill env.alignMillOk]
  if stopF rc then
    (ev1 ++ [Ev.checkStop true, Ev.setStatus idx Status.failed],
      Status.failed, true, rc + 1)
  else if env.alignMillOk = false then
    (ev1 ++ [Ev.checkStop false, Ev.setStatus idx Status.failed],
      Status.failed, false, rc + 1)
  else
    let ev2 := ev1 ++ [Ev.checkStop false, Ev.mill env.millOk]
    if env.millOk = false then
      (ev2 ++ [Ev.setStatus idx Status.failed], Status.failed, false, rc + 1)
    else if stopF (rc + 1) then
      (ev2 ++ [Ev.checkStop true, Ev.setStatus idx Status.failed],
        Status.failed, true, rc + 2)
    else
      (ev2 ++ [Ev.checkStop false, Ev.setStatus idx Status.done],
        Status.done, false, rc + 2)

/-- The move-and-align middle of one loop iteration (AmFibia.py lines
3410-3441): decide whether a full re-alignment is needed (first task,
changed coordinates, or unsuccessful previous move), and if so move the
stage (continue on failure), run the low-current full-frame alignment,
check the cancellation flag (break), and check the alignment result
(continue); otherwise skip directly to the fine alignment.  The last
component reports the value of `task.move_successful`. -/
def moveStep (stopF : ℕ → Bool) (rc idx : ℕ) (t : Task) (env : HWEnv)
    (prev : Option (Coords × Bool)) : List Ev × Status × Bool × ℕ × Bool :=
  let move_and_align : Bool :=
    match prev with
    | none => true
    | some pcm => decide (pcm.1 ≠ t.coords) || !pcm.2
  if move_and_align then
    if env.moveOk then
      let evA := [Ev.moveStage true, Ev.alignLow env.alignLowOk]
      if stopF rc then
        (evA ++ [Ev.checkStop true, Ev.setStatus idx Status.failed],
          Status.failed, true, rc + 1, true)
      else if env.alignLowOk then
        let r := fineStep stopF (rc + 1) idx env
        (evA ++ [Ev.checkStop false] ++ r.1, r.2.1, r.2.2.1, r.2.2.2, true)
      else
        (evA ++ [Ev.checkStop false, Ev.setStatus idx Status.failed],
          Status.failed, false, rc + 1, true)
    else
      ([Ev.moveStage false, Ev.setStatus idx Status.failed], Status.failed,
        false, rc, false)
  else
    let r := fineStep stopF rc idx env
    (r.1, r.2.1, r.2.2.1, r.2.2.2, true)

/-- One full iteration of the milling loop for the task at index `idx`
(AmFibia.py lines 3345-3471, `MODE == "scope"` branch): check the
cancellation flag at the loop top (break), mark the group `busy`, wait out
a positive delay (entering sleep mode first when it exceeds
`MAX_DELAY_NO_HOME`) and re-check the flag after the sleep (break), then
run the move/align/mill part. -/
def taskStep (stopF : ℕ → Bool) (rc idx : ℕ) (t : Task) (env : HWEnv)
    (prev : Option (Coords × Bool)) : List Ev × Status × Bool × ℕ × Bool :=
  if stopF rc then
    ([Ev.checkStop true, Ev.setStatus idx Status.failed], Status.failed,
      true, rc + 1, false)
  else
    let ev0 := [Ev.checkStop false, Ev.setStatus idx Status.busy]
    let d := t.pattern_group.delay
    if 0 < d then
      let evSleep :=
        (if MAX_DELAY_NO_HOME < d then [Ev.sleepMode] else []) ++
          [Ev.sleepSecs d]
      if stopF (rc + 1) then
        (ev0 ++ evSleep ++ [Ev.checkStop true, Ev.setStatus idx Status.failed],
          Status.failed, true, rc + 2, false)
      else
        let r := moveStep stopF (rc + 2) idx t env prev
        (ev0 ++ evSleep ++ [Ev.checkStop false] ++ r.1, r.2.1, r.2.2.1,
          r.2.2.2.1, r.2.2.2.2)
    else
      let r := moveStep stopF (rc + 1) idx t env prev
      (ev0 ++ r.1, r.2.1, r.2.2.1, r.2.2.2.1, r.2.2.2.2)

/-- The milling loop of `MainWindow.run` (AmFibia.py lines 3344-3471) over
the ordered task list, with the hardware oracle for each task and the
cancellation flag modelled as a function of the read index.  Returns the
event trace and the final `milled_status` of each task's pattern group, in
task order; on a `break`, the remaining groups keep the status they
entered with. -/
def runLoop (stopF : ℕ → Bool) :
    List (Task × HWEnv) → ℕ → ℕ → Option (Coords × Bool) →
      List Ev × List (Option Status)
  | [], _, _, _ => ([], [])
  | (t, env) :: rest, idx, rc, prev =>
      let r := taskStep stopF rc idx t env prev
      if r.2.2.1 then
        (r.1, some r.2.1 :: rest.map (fun te => te.1.pattern_group.milled_status))
      else
        let r2 := runLoop stopF rest (idx + 1) r.2.2.2.1 (some (t.coords, r.2.2.2.2))
        (r.1 ++ r2.1, some r.2.1 :: r2.2)

/-- Every attribute defined on the `fibsem` class of AutoscriptHelpers.py
(its method definitions, lines 43-625) together with the instance
attributes assigned in `__init__` (lines 43-63).  Python resolves
`scope.<name>` against exactly these; any other name raises
`AttributeError`. -/
def fibsem_attributes : List String :=
  ["history", "working_dir", "log_output", "lamella_name",
    "alignment_current", "__init__", "get_available_ion_beam_currents",
    "stop", "stop_patterning", "ion_on", "electron_on", "enter_sleep_mode",
    "clear_patterns", "take_image_IB", "take_image_EB",
    "get_stage_position", "move_stage_absolute", "retreive_xT_patterns",
    "auto_focus", "change_ion_beam_current", "set_full_frame_IB",
    "get_current_scanning_resolution",
    "get_current_horizontal_field_width", "set_image_conditions_IB",
    "align", "_adjust_template_size", "align_current", "do_milling",
    "_create_xT_pattern", "_set_common_pattern_properties"]

/-- The keyword parameters accepted by `fibsem.set_image_conditions_IB`
(AutoscriptHelpers.py line 269); a call with any other keyword raises
`TypeError`. -/
def set_image_conditions_IB_params : List String :=
  ["self", "resolution", "horizontal_field_width"]

/-- Outcome of one `MainWindow.run` call as seen by the caller: whether
pattern editing is still locked, whether the milling controls are enabled
again, whether the final state snapshot was written, whether the pre-run
scanning resolution / field of view / beam current were restored, and
whether the call raised an exception. -/
structure RunOutcome where
  patterns_locked : Bool
  controls_enabled : Bool
  final_state_saved : Bool
  conditions_restored : Bool
  raised : Bool
deriving DecidableEq, Repr

/-- `MainWindow.run` in `MODE == "scope"` from the point where the operator
confirmed the dialog (AmFibia.py lines 3331-3485): lock all patterns and
disable the controls, read the current scanning resolution, field width
and beam current (line 3341 resolves `scope.get_current_beam_current`,
raising `AttributeError` when `fibsem` defines no such attribute — before
the `try` is entered), run the task loop inside `try`, and in the
`finally` block unlock the patterns, re-enable the controls, save the
state, and call `set_image_conditions_IB(resolution=…,
horizontal_field_width=…, current=…)` — which raises `TypeError` when
`current` is not among that method's parameters, after the unlock /
re-enable / save but before `run` returns. -/
def run_scope (tasks : List (Task × HWEnv)) (stopF : ℕ → Bool) :
    RunOutcome × List Ev × List (Option Status) :=
  if decide ("get_current_beam_current" ∈ fibsem_attributes) then
    let r := runLoop stopF tasks 0 0 none
    if decide ("current" ∈ set_image_conditions_IB_params) then
      (⟨false, true, true, true, false⟩, r.1, r.2)
    else
      (⟨false, true, true, false, true⟩, r.1, r.2)
  else
    (⟨true, false, false, false, true⟩, [],
      tasks.map (fun te => te.1.pattern_group.milled_status))

/-! Theorems. -/

/-- C9: for every pattern handed to device-pattern creation, a zero or
negative depth is replaced by the minimum `1e-9` m before the device
pattern is created, and the mutated pattern — hence every depth actually
sent to the instrument — has a strictly positive depth. -/
theorem create_xT_pattern_depth_clamped (p : SourcePattern) :
    0 < (create_xT_pattern p).1.depth ∧
    (p.depth ≤ 0 → (create_xT_pattern p).1.depth = 1 / 1000000000) ∧
    ∀ xp : XTPattern, (create_xT_pattern p).2 = some xp →
      ∀ d : ℚ, xp.depth = some d →
        0 < d ∧ (p.depth ≤ 0 → d = 1 / 1000000000) := by
  have hfst : (create_xT_pattern p).1.depth =
      if p.depth ≤ 0 then 1 / 1000000000 else p.depth := by
    rcases p with ⟨pt, dep⟩
    by_cases h : dep ≤ 0 <;> simp [create_xT_pattern, h]
  have hsent : ∀ xp : XTPattern, (create_xT_pattern p).2 = some xp →
      ∀ d : ℚ, xp.depth = some d → d = (create_xT_pattern p).1.depth := by
    intro xp hxp d hd
    rcases p with ⟨pt, dep⟩
    cases pt <;> simp only [create_xT_pattern] at hxp ⊢ <;>
      first
        | exact Option.noConfusion hxp
        | (simp only [Option.some.injEq] at hxp
           rw [← hxp] at hd
           simp_all)
  have hpos : 0 < (create_xT_pattern p).1.depth := by
    rw [hfst]
    by_cases h : p.depth ≤ 0
    · rw [if_pos h]; norm_num
    · rw [if_neg h]; exact lt_of_not_le h
  refine ⟨hpos, fun h => by rw [hfst, if_pos h], ?_⟩
  intro xp hxp d hd
  have hde := hsent xp hxp d hd
  exact ⟨hde ▸ hpos, fun h => by rw [hde, hfst, if_pos h]⟩

/-- Witness for the depth-clamping theorem at a rectangle of depth `-1`. -/
theorem create_xT_pattern_depth_clamped_witness :
    0 < (create_xT_pattern ⟨PatternType.rectangle, -1⟩).1.depth ∧
    (create_xT_pattern ⟨PatternType.rectangle, -1⟩).1.depth = 1 / 1000000000 := by
  refine ⟨(create_xT_pattern_depth_clamped ⟨PatternType.rectangle, -1⟩).1, ?_⟩
  exact (create_xT_pattern_depth_clamped ⟨PatternType.rectangle, -1⟩).2.1
    (by norm_num)

/-- Helper bound: a metric coordinate at least `-fov/2` maps to a fraction
at least 0. -/
theorem half_add_div_nonneg (fov a : ℚ) (hf : 0 < fov)
    (ha : -(fov / 2) ≤ a) : 0 ≤ 1 / 2 + a / fov := by
  have h1 : -(fov / 2) / fov ≤ a / fov :=
    div_le_div_of_nonneg_right ha hf.le
  have h2 : -(fov / 2) / fov = -(1 / 2) := by
    field_simp
    ring
  linarith [h2 ▸ h1]

/-- Helper bound: a metric coordinate at most `fov/2` maps to a fraction
at most 1. -/
theorem half_add_div_le_one (fov a : ℚ) (hf : 0 < fov)
    (ha : a ≤ fov / 2) : 1 / 2 + a / fov ≤ 1 := by
  have h1 : a / fov ≤ fov / 2 / fov :=
    div_le_div_of_nonneg_right ha hf.le
  have h2 : fov / 2 / fov = 1 / 2 := by
    field_simp
    ring
  linarith [h2 ▸ h1]

/-- C8: for a non-null metric tracking area, `relative_coords` returns
exactly `left = 0.5 + left/fov_w`, `top = 0.5 - top/fov_h`,
`width = width/fov_w`, `height = height/fov_h`; and when the tracking
area lies fully inside the field of view (its metric left and right
edges within `±fov_w/2`, its metric top and bottom edges within
`±fov_h/2`, with nonnegative extents), all of `left`, `top`,
`left + width` and `top + height` lie in `[0, 1]`. -/
theorem relative_coords_in_unit_box (ta : TrackingAreaM) (fw fh : ℚ)
    (hfw : 0 < fw) (hfh : 0 < fh) (hw : 0 ≤ ta.width) (hh : 0 ≤ ta.height)
    (hl : -(fw / 2) ≤ ta.left) (hr : ta.left + ta.width ≤ fw / 2)
    (ht : ta.top ≤ fh / 2) (hb : -(fh / 2) ≤ ta.top - ta.height) :
    relative_coords (some ta) fw fh =
      some ⟨1 / 2 + ta.left / fw, 1 / 2 - ta.top / fh, ta.width / fw,
        ta.height / fh⟩ ∧
    0 ≤ 1 / 2 + ta.left / fw ∧ 1 / 2 + ta.left / fw ≤ 1 ∧
    0 ≤ 1 / 2 - ta.top / fh ∧ 1 / 2 - ta.top / fh ≤ 1 ∧
    0 ≤ 1 / 2 + ta.left / fw + ta.width / fw ∧
    1 / 2 + ta.left / fw + ta.width / fw ≤ 1 ∧
    0 ≤ 1 / 2 - ta.top / fh + ta.height / fh ∧
    1 / 2 - ta.top / fh + ta.height / fh ≤ 1 := by
  have hsum : ta.left / fw + ta.width / fw = (ta.left + ta.width) / fw :=
    div_add_div_same ta.left ta.width fw
  have hsum2 : ta.top / fh - ta.height / fh = (ta.top - ta.height) / fh :=
    div_sub_div_same ta.top ta.height fh
  refine ⟨rfl, ?_, ?_, ?_, ?_, ?_, ?_, ?_, ?_⟩
  · exact half_add_div_nonneg fw ta.left hfw hl
  · exact half_add_div_le_one fw ta.left hfw (by linarith)
  · have := half_add_div_le_one fh ta.top hfh ht
    have hneg : ta.top / fh ≤ 1 / 2 := by linarith
    linarith
  · have htop : -(fh / 2) ≤ ta.top := by linarith
    have := half_add_div_nonneg fh ta.top hfh htop
    linarith
  · have := half_add_div_nonneg fw (ta.left + ta.width) hfw (by linarith)
    calc (0 : ℚ) ≤ 1 / 2 + (ta.left + ta.width) / fw := this
      _ = 1 / 2 + ta.left / fw + ta.width / fw := by rw [← hsum]; ring
  · have := half_add_div_le_one fw (ta.left + ta.width) hfw hr
    calc 1 / 2 + ta.left / fw + ta.width / fw
        = 1 / 2 + (ta.left + ta.width) / fw := by rw [← hsum]; ring
      _ ≤ 1 := this
  · have := half_add_div_le_one fh (ta.top - ta.height) hfh (by linarith)
    calc (0 : ℚ) ≤ 1 - (1 / 2 + (ta.top - ta.height) / fh) := by linarith
      _ = 1 / 2 - ta.top / fh + ta.height / fh := by
          rw [← hsum2]; ring
  · have := half_add_div_nonneg fh (ta.top - ta.height) hfh hb
    calc 1 / 2 - ta.top / fh + ta.height / fh
        = 1 - (1 / 2 + (ta.top - ta.height) / fh) := by rw [← hsum2]; ring
      _ ≤ 1 := by linarith

/-- Witness for the tracking-area range theorem: a centered 2 m × 2 m
tracking area in a 4 m × 4 m field of view maps to the fractional
rectangle `(1/4, 1/4, 1/2, 1/2)`. -/
theorem relative_coords_in_unit_box_witness :
    relative_coords (some ⟨-1, 1, 1, -1, 2, 2, 0, 0⟩) 4 4 =
      some ⟨1 / 2 + (-1 : ℚ) / 4, 1 / 2 - (1 : ℚ) / 4, (2 : ℚ) / 4,
        (2 : ℚ) / 4⟩ ∧
    (0 : ℚ) ≤ 1 / 2 + (-1 : ℚ) / 4 := by
  have h := relative_coords_in_unit_box ⟨-1, 1, 1, -1, 2, 2, 0, 0⟩ 4 4
    (by norm_num) (by norm_num) (by norm_num) (by norm_num) (by norm_num)
    (by norm_num) (by norm_num) (by norm_num)
  exact ⟨h.1, h.2.1⟩

/-- Helper: a fresh pattern group whose `milled_status` attribute is
absent makes `buildTaskListAux` fail with `AttributeError` as soon as its
sequential group comes up. -/
theorem buildTaskListAux_none_of_missing_status (pos : Position)
    (g : PatternGroup) (im : ImgMeta) (hpat : pos.patterns = [g.clone])
    (him : pos.image = some im) (hg : g.patterns ≠ []) :
    ∀ sgs : List ℕ, g.sequential_group ∈ sgs →
      buildTaskListAux [pos] sgs = none := by
  have hclone : g.clone.milled_status = none := rfl
  have hlen : g.clone.patterns.length ≠ 0 := by
    simpa [PatternGroup.clone, PatternGroup.init, List.length_eq_zero] using hg
  have hseq : g.clone.sequential_group = g.sequential_group := rfl
  intro sgs
  induction sgs with
  | nil => intro h; cases h
  | cons a tail ih =>
      intro hmem
      by_cases ha : g.sequential_group = a
      · have hgroups : tasksForGroups a 0 pos pos.patterns = none := by
          rw [hpat]
          simp [tasksForGroups, hseq, ha, hlen, hclone]
        have hsg : tasksForSg a [pos] 0 = none := by
          simp [tasksForSg, him, hgroups]
        simp [buildTaskListAux, hsg]
      · have hgroups : tasksForGroups a 0 pos pos.patterns = some [] := by
          rw [hpat]
          simp [tasksForGroups, hseq, ha]
        have hsg : tasksForSg a [pos] 0 = some [] := by
          simp [tasksForSg, him, hgroups]
        have htail : g.sequential_group ∈ tail := by
          cases List.mem_cons.mp hmem with
          | inl h => exact absurd h ha
          | inr h => exact h
        simp [buildTaskListAux, hsg, ih htail]

/-- C10: a `PatternGroup` built by the dataclass constructor, by
`create_with_index`, by `load_patterns_for_display`, by
`convert_xT_patterns_to_displayable`, or by `clone()` (which drops any
`milled_status` assigned to its source after construction) carries no
`milled_status` attribute; consequently the pending filter of
`build_task_list` and the status read of `rebuild_positions` raise
`AttributeError` (modelled `none`) on such a group instead of treating it
as pending. -/
theorem pattern_group_milled_status_absent (ps : List ℕ) (mc : ℚ)
    (col rand : ℕ × ℕ × ℕ) (sg d gi n : ℕ) (g : PatternGroup)
    (pos : Position) (im : ImgMeta) (hpat : pos.patterns = [g.clone])
    (him : pos.image = some im) (hg : g.patterns ≠ []) :
    (PatternGroup.init ps mc col sg d).milled_status = none ∧
    (PatternGroup.create_with_index ps mc gi rand sg d).milled_status =
      none ∧
    (load_patterns_for_display ps mc gi rand).milled_status = none ∧
    (convert_xT_patterns_to_displayable n mc gi rand).milled_status =
      none ∧
    g.clone.milled_status = none ∧
    build_task_list [pos] = none ∧
    rebuild_positions_statuses pos.patterns = none := by
  refine ⟨rfl, rfl, rfl, rfl, rfl, ?_, ?_⟩
  · have hmax : max_sequential_group [pos] = g.sequential_group := by
      simp [max_sequential_group, hpat, PatternGroup.clone, PatternGroup.init]
    have hmem : g.sequential_group ∈
        List.range (max_sequential_group [pos] + 1) := by
      rw [hmax]
      exact List.mem_range.mpr (Nat.lt_succ_self _)
    exact buildTaskListAux_none_of_missing_status pos g im hpat him hg _ hmem
  · rw [hpat]
    rfl

/-- Witness for the missing-`milled_status` theorem: a one-pattern group
cloned from a group that had been marked `done`, on a position with a
1 m × 1 m image. -/
theorem pattern_group_milled_status_absent_witness :
    (PatternGroup.clone
        ⟨[0], 0, (0, 0, 0), 0, 0, some Status.done⟩).milled_status = none ∧
    build_task_list
        [⟨⟨0, 0, 0, 0, 0⟩, some ⟨1, 1⟩, none,
          [PatternGroup.clone ⟨[0], 0, (0, 0, 0), 0, 0, some Status.done⟩]⟩] =
      none := by
  have h := pattern_group_milled_status_absent [] 0 (0, 0, 0) (0, 0, 0) 0 0 0
    0 ⟨[0], 0, (0, 0, 0), 0, 0, some Status.done⟩
    ⟨⟨0, 0, 0, 0, 0⟩, some ⟨1, 1⟩, none,
      [PatternGroup.clone ⟨[0], 0, (0, 0, 0), 0, 0, some Status.done⟩]⟩
    ⟨1, 1⟩ rfl rfl (by simp)
  exact ⟨h.2.2.2.2.1, h.2.2.2.2.2.1⟩

/-- C4 (code divergence): in scope mode `MainWindow.run` locks pattern
editing and disables the controls, then resolves
`scope.get_current_beam_current` — an attribute the `fibsem` class does
not define — so an `AttributeError` is raised before the `try`/`finally`
is entered: the guaranteed-cleanup phase never runs, nothing is unlocked,
re-enabled, saved or restored.  Moreover the `finally` block's restore
call passes a `current` keyword that `set_image_conditions_IB` does not
accept, so even a run that reached the loop could never restore the
pre-run beam conditions. -/
theorem run_scope_cleanup_skipped (tasks : List (Task × HWEnv))
    (stopF : ℕ → Bool) :
    (run_scope tasks stopF).1 =
      ⟨true, false, false, false, true⟩ ∧
    decide ("get_current_beam_current" ∈ fibsem_attributes) = false ∧
    decide ("current" ∈ set_image_conditions_IB_params) = false := by
  refine ⟨?_, by decide, by decide⟩
  rfl

/-- Helper: when every matcher answer has confidence below 0.98 and a
residual at or above `MIN_ALIGNMENT_DISTANCE`, the correction loop runs
until `move_count` reaches exactly the budget 5. -/
theorem alignLoop_exhausts_budget (matcher : ℕ → LocateResult)
    (rotZero : Bool)
    (hconf : ∀ k, (matcher k).confidence < 98 / 100)
    (hdist : ∀ k,
      MIN_ALIGNMENT_DISTANCE * MIN_ALIGNMENT_DISTANCE ≤ distSq (matcher k)) :
    ∀ (fuel k : ℕ) (s : AlignState), s.move_count = k → k + fuel = 6 →
      k ≤ 5 →
      (alignLoop matcher rotZero fuel (matcher k) s).move_count = 5 := by
  intro fuel
  induction fuel with
  | zero =>
      intro k s hmc hsum hk
      omega
  | succ fuel ih =>
      intro k s hmc hsum hk
      by_cases hk5 : k < 5
      · rw [alignLoop, if_pos ⟨hconf k, by rw [hmc]; exact hk5⟩,
          if_neg (not_lt.mpr (hdist k))]
        simp only
        rw [hmc]
        exact ih (k + 1) _ rfl (by omega) (by omega)
      · have hke : k = 5 := by omega
        rw [alignLoop, if_neg (by rw [hmc, hke]; simp)]
        rw [hmc, hke]

/-- Counterexample to C1 as stated: a matcher that always reports
confidence 0 and a residual of 1 mm never converges, so the move budget is
exhausted after exactly 5 correction iterations — and `fibsem.align`
returns `True`, not `False`: the loop is followed by an unconditional
`return True`, so budget exhaustion is not reported as an alignment
failure. -/
theorem align_budget_exhaustion_counterexample :
    align ⟨2, 2, [[0, 0], [0, 0]]⟩ ⟨2, 2, [[0, 0], [0, 0]]⟩
        (fun _ => ⟨0, 1 / 1000, 0⟩) true true (0, 0) =
      (true, ⟨(0, 0), (1 / 200, 0), 5⟩) := by
  norm_num [align, alignLoop, adjust_template_size, distSq,
    MIN_ALIGNMENT_DISTANCE]

/-- C1 (amended): for every alignment call in which the matcher's
confidence never reaches 0.98 and the residual distance never falls below
the hardware-resolution epsilon, `fibsem.align` terminates after exactly
the fixed budget of 5 correction iterations and returns `True` — the
source has no post-loop convergence check, so the boolean it returns is
`True` whenever the template-size adjustment succeeded (and no driver
call raised), regardless of convergence. -/
theorem align_budget_exhaustion_true (current_img template : ImageG)
    (matcher : ℕ → LocateResult) (rotZero rbs : Bool) (bs0 : ℚ × ℚ)
    (hadj : (adjust_template_size current_img template).isSome = true)
    (hconf : ∀ k, (matcher k).confidence < 98 / 100)
    (hdist : ∀ k,
      MIN_ALIGNMENT_DISTANCE * MIN_ALIGNMENT_DISTANCE ≤ distSq (matcher k)) :
    (align current_img template matcher rotZero rbs bs0).1 = true ∧
    (align current_img template matcher rotZero rbs bs0).2.move_count =
      5 := by
  obtain ⟨adj, hadjeq⟩ := Option.isSome_iff_exists.mp hadj
  constructor
  · simp [align, hadjeq]
  · simp only [align, hadjeq]
    exact alignLoop_exhausts_budget matcher rotZero hconf hdist 6 0 _ rfl
      rfl (by omega)

/-- Witness for the amended budget theorem: equal 2 × 2 images and a
matcher constantly reporting confidence one half with a 2 mm residual. -/
theorem align_budget_exhaustion_true_witness :
    (align ⟨2, 2, [[1, 2], [3, 4]]⟩ ⟨2, 2, [[1, 2], [3, 4]]⟩
        (fun _ => ⟨1 / 2, 0, 1 / 500⟩) false false (1, 1)).1 = true ∧
    (align ⟨2, 2, [[1, 2], [3, 4]]⟩ ⟨2, 2, [[1, 2], [3, 4]]⟩
        (fun _ => ⟨1 / 2, 0, 1 / 500⟩) false false (1, 1)).2.move_count =
      5 := by
  exact align_budget_exhaustion_true ⟨2, 2, [[1, 2], [3, 4]]⟩
    ⟨2, 2, [[1, 2], [3, 4]]⟩ (fun _ => ⟨1 / 2, 0, 1 / 500⟩) false false
    (1, 1) (by decide) (fun k => by norm_num)
    (fun k => by norm_num [MIN_ALIGNMENT_DISTANCE, distSq])

/-- A raster grid with `h` rows, each of width `w`. -/
def IsRect (g : List (List ℤ)) (h w : ℕ) : Prop :=
  g.length = h ∧ ∀ row ∈ g, row.length = w

instance (g : List (List ℤ)) (h w : ℕ) : Decidable (IsRect g h w) := by
  unfold IsRect
  infer_instance

/-- Mirror padding by `k` entries lengthens a list by `k` when the list
has more than `k` entries (there must be something to reflect). -/
theorem padReflectEnd_length {α : Type} (k : ℕ) (l : List α)
    (hk : k + 1 ≤ l.length) : (padReflectEnd k l).length = l.length + k := by
  simp [padReflectEnd]
  omega

/-- Mirror padding only appends entries of the original list. -/
theorem padReflectEnd_mem {α : Type} (k : ℕ) (l : List α) :
    ∀ x ∈ padReflectEnd k l, x ∈ l := by
  intro x hx
  rcases List.mem_append.mp hx with h | h
  · exact h
  · exact List.mem_reverse.mp (List.mem_of_mem_drop (List.mem_of_mem_take h))

/-- The height-adjustment step of `_adjust_template_size` turns a
`th × tw` grid into a `ch × tw` grid when the heights differ by at most
one pixel. -/
theorem heightAdjust_isRect (d0 : List (List ℤ)) (th tw ch : ℕ)
    (h0 : IsRect d0 th tw) (h2 : 2 ≤ th)
    (hd : ((ch : ℤ) - th).natAbs ≤ 1) :
    IsRect
      (if th < ch then padReflectEnd (ch - th) d0
        else if ch < th then d0.take ch else d0) ch tw := by
  obtain ⟨hlen, hrows⟩ := h0
  by_cases hlt : th < ch
  · rw [if_pos hlt]
    have hk : (ch - th) + 1 ≤ d0.length := by rw [hlen]; omega
    refine ⟨by rw [padReflectEnd_length _ _ hk, hlen]; omega, ?_⟩
    intro row hr
    exact hrows row (padReflectEnd_mem _ _ row hr)
  · by_cases hgt : ch < th
    · rw [if_neg hlt, if_pos hgt]
      refine ⟨by rw [List.length_take, hlen]; omega, ?_⟩
      intro row hr
      exact hrows row (List.mem_of_mem_take hr)
    · rw [if_neg hlt, if_neg hgt]
      exact ⟨by omega, hrows⟩

/-- The width-adjustment step of `_adjust_template_size` turns a
`ch × tw` grid into a `ch × cw` grid when the widths differ by at most
one pixel. -/
theorem widthAdjust_isRect (d1 : List (List ℤ)) (ch tw cw : ℕ)
    (h1 : IsRect d1 ch tw) (h2 : 2 ≤ tw)
    (hd : ((cw : ℤ) - tw).natAbs ≤ 1) :
    IsRect
      (if tw < cw then d1.map (padReflectEnd (cw - tw))
        else if cw < tw then d1.map (fun row => row.take cw) else d1)
      ch cw := by
  obtain ⟨hlen, hrows⟩ := h1
  by_cases hlt : tw < cw
  · rw [if_pos hlt]
    refine ⟨by rw [List.length_map]; exact hlen, ?_⟩
    intro row hr
    obtain ⟨r0, hr0, hmap⟩ := List.mem_map.mp hr
    subst hmap
    have hk : (cw - tw) + 1 ≤ r0.length := by rw [hrows r0 hr0]; omega
    rw [padReflectEnd_length _ _ hk, hrows r0 hr0]
    omega
  · by_cases hgt : cw < tw
    · rw [if_neg hlt, if_pos hgt]
      refine ⟨by rw [List.length_map]; exact hlen, ?_⟩
      intro row hr
      obtain ⟨r0, hr0, hmap⟩ := List.mem_map.mp hr
      subst hmap
      rw [List.length_take, hrows r0 hr0]
      omega
    · rw [if_neg hlt, if_neg hgt]
      refine ⟨hlen, fun row hr => ?_⟩
      rw [hrows row hr]
      omega

/-- C7: when the live image's dimensions differ from the reference
template's by more than one pixel in either axis, the template adjustment
raises and the whole alignment attempt returns failure; when they differ
by at most one pixel in each axis, the adjustment succeeds, the adjusted
reference has exactly the live image's dimensions (mirror-padding the
smaller axis, cropping the larger), and the alignment proceeds (returns
without the size-mismatch failure). -/
theorem adjust_template_size_spec (current_img template : ImageG)
    (matcher : ℕ → LocateResult) (rotZero rbs : Bool) (bs0 : ℚ × ℚ) :
    ((1 < ((current_img.width : ℤ) - template.width).natAbs ∨
        1 < ((current_img.height : ℤ) - template.height).natAbs) →
      adjust_template_size current_img template = none ∧
      (align current_img template matcher rotZero rbs bs0).1 = false) ∧
    (((current_img.width : ℤ) - template.width).natAbs ≤ 1 →
      ((current_img.height : ℤ) - template.height).natAbs ≤ 1 →
      IsRect template.data template.height template.width →
      2 ≤ template.height → 2 ≤ template.width →
      ∃ adj, adjust_template_size current_img template = some adj ∧
        adj.height = current_img.height ∧ adj.width = current_img.width ∧
        IsRect adj.data current_img.height current_img.width ∧
        (align current_img template matcher rotZero rbs bs0).1 = true) := by
  constructor
  · intro hbig
    have hne : ¬(current_img.width = template.width ∧
        current_img.height = template.height) := by
      rintro ⟨h1, h2⟩
      rw [h1, h2] at hbig
      simp at hbig
    have hnone : adjust_template_size current_img template = none := by
      simp only [adjust_template_size]
      rw [if_neg hne, if_pos hbig]
    exact ⟨hnone, by simp [align, hnone]⟩
  · intro hw hh hrect hth htw
    by_cases heq : current_img.width = template.width ∧
        current_img.height = template.height
    · have hadj : adjust_template_size current_img template =
          some template := by
        simp only [adjust_template_size]
        rw [if_pos heq]
      refine ⟨template, hadj, heq.2.symm, heq.1.symm, ?_, by
        simp [align, hadj]⟩
      rw [← heq.1, ← heq.2] at hrect
      exact hrect
    · have hno : ¬(1 < ((current_img.width : ℤ) - template.width).natAbs ∨
          1 < ((current_img.height : ℤ) - template.height).natAbs) := by
        push_neg
        exact ⟨hw, hh⟩
      have hIs1 := heightAdjust_isRect template.data template.height
        template.width current_img.height hrect hth hh
      have hIs2 := widthAdjust_isRect _ current_img.height template.width
        current_img.width hIs1 htw hw
      have hadj : adjust_template_size current_img template =
          some
            { height :=
                (if template.width < current_img.width then
                    (if template.height < current_img.height then
                        padReflectEnd
                          (current_img.height - template.height)
                          template.data
                      else if current_img.height < template.height then
                        template.data.take current_img.height
                      else template.data).map
                      (padReflectEnd (current_img.width - template.width))
                  else if current_img.width < template.width then
                    (if template.height < current_img.height then
                        padReflectEnd
                          (current_img.height - template.height)
                          template.data
                      else if current_img.height < template.height then
                        template.data.take current_img.height
                      else template.data).map
                      (fun row => row.take current_img.width)
                  else
                    if template.height < current_img.height then
                      padReflectEnd (current_img.height - template.height)
                        template.data
                    else if current_img.height < template.height then
                      template.data.take current_img.height
                    else template.data).length
              width :=
                ((if template.width < current_img.width then
                      (if template.height < current_img.height then
                          padReflectEnd
                            (current_img.height - template.height)
                            template.data
                        else if current_img.height < template.height then
                          template.data.take current_img.height
                        else template.data).map
                        (padReflectEnd (current_img.width - template.width))
                    else if current_img.width < template.width then
                      (if template.height < current_img.height then
                          padReflectEnd
                            (current_img.height - template.height)
                            template.data
                        else if current_img.height < template.height then
                          template.data.take current_img.height
                        else template.data).map
                        (fun row => row.take current_img.width)
                    else
                      if template.height < current_img.height then
                        padReflectEnd
                          (current_img.height - template.height)
                          template.data
                      else if current_img.height < template.height then
                        template.data.take current_img.height
                      else template.data).headD []).length
              data :=
                if template.width < current_img.width then
                  (if template.height < current_img.height then
                      padReflectEnd (current_img.height - template.height)
                        template.data
                    else if current_img.height < template.height then
                      template.data.take current_img.height
                    else template.data).map
                    (padReflectEnd (current_img.width - template.width))
                else if current_img.width < template.width then
                  (if template.height < current_img.height then
                      padReflectEnd (current_img.height - template.height)
                        template.data
                    else if current_img.height < template.height then
                      template.data.take current_img.height
                    else template.data).map
                    (fun row => row.take current_img.width)
                else
                  if template.height < current_img.height then
                    padReflectEnd (current_img.height - template.height)
                      template.data
                  else if current_img.height < template.height then
                    template.data.take current_img.height
                  else template.data } := by
        simp only [adjust_template_size]
        rw [if_neg heq, if_neg hno]
      generalize hdd :
        (if template.width < current_img.width then
            (if template.height < current_img.height then
                padReflectEnd (current_img.height - template.height)
                  template.data
              else if current_img.height < template.height then
                template.data.take current_img.height
              else template.data).map
              (padReflectEnd (current_img.width - template.width))
          else if current_img.width < template.width then
            (if template.height < current_img.height then
                padReflectEnd (current_img.height - template.height)
                  template.data
              else if current_img.height < template.height then
                template.data.take current_img.height
              else template.data).map
              (fun row => row.take current_img.width)
          else
            if template.height < current_img.height then
              padReflectEnd (current_img.height - template.height)
                template.data
            else if current_img.height < template.height then
              template.data.take current_img.height
            else template.data) = dd at hadj hIs2
      obtain ⟨hddlen, hddrows⟩ := hIs2
      have hpos : 1 ≤ current_img.height := by omega
      obtain ⟨r, rest, hcons⟩ : ∃ r rest, dd = r :: rest := by
        cases dd with
        | nil => exact absurd hddlen (by simp; omega)
        | cons r rest => exact ⟨r, rest, rfl⟩
      refine ⟨_, hadj, hddlen, ?_, ⟨hddlen, hddrows⟩, by simp [align, hadj]⟩
      rw [hcons]
      exact hddrows r (hcons ▸ List.mem_cons_self r rest)

/-- Witness for the template-adjustment theorem: a 5 × 5 live image
against a 2 × 2 reference aborts, while a 3 × 3 live image against the
same reference gets a padded 3 × 3 reference and proceeds. -/
theorem adjust_template_size_spec_witness :
    (adjust_template_size ⟨5, 5, []⟩ ⟨2, 2, [[1, 2], [3, 4]]⟩ = none ∧
      (align ⟨5, 5, []⟩ ⟨2, 2, [[1, 2], [3, 4]]⟩ (fun _ => ⟨1, 0, 0⟩) true
          true (0, 0)).1 = false) ∧
    ∃ adj,
      adjust_template_size ⟨3, 3, [[0, 0, 0], [0, 0, 0], [0, 0, 0]]⟩
          ⟨2, 2, [[1, 2], [3, 4]]⟩ = some adj ∧
      adj.height = 3 ∧ adj.width = 3 ∧ IsRect adj.data 3 3 ∧
      (align ⟨3, 3, [[0, 0, 0], [0, 0, 0], [0, 0, 0]]⟩
          ⟨2, 2, [[1, 2], [3, 4]]⟩ (fun _ => ⟨1, 0, 0⟩) true true
          (0, 0)).1 = true := by
  constructor
  · exact (adjust_template_size_spec ⟨5, 5, []⟩ ⟨2, 2, [[1, 2], [3, 4]]⟩
      (fun _ => ⟨1, 0, 0⟩) true true (0, 0)).1 (by decide)
  · exact (adjust_template_size_spec
      ⟨3, 3, [[0, 0, 0], [0, 0, 0], [0, 0, 0]]⟩ ⟨2, 2, [[1, 2], [3, 4]]⟩
      (fun _ => ⟨1, 0, 0⟩) true true (0, 0)).2 (by decide) (by decide)
      (by decide) (by decide) (by decide)

/-- Helper: with the cancellation flag never set, the fine-align/mill
tail never `break`s and ends in a terminal state. -/
theorem fineStep_no_stop (stopF : ℕ → Bool) (h : ∀ n, stopF n = false)
    (rc idx : ℕ) (env : HWEnv) :
    (fineStep stopF rc idx env).2.2.1 = false ∧
    ((fineStep stopF rc idx env).2.1 = Status.done ∨
      (fineStep stopF rc idx env).2.1 = Status.failed) := by
  cases ha : env.alignMillOk <;> cases hm : env.millOk <;>
    simp [fineStep, h, ha, hm]

/-- Helper: with the cancellation flag never set, the move-and-align
middle never `break`s and ends in a terminal state. -/
theorem moveStep_no_stop (stopF : ℕ → Bool) (h : ∀ n, stopF n = false)
    (rc idx : ℕ) (t : Task) (env : HWEnv)
    (prev : Option (Coords × Bool)) :
    (moveStep stopF rc idx t env prev).2.2.1 = false ∧
    ((moveStep stopF rc idx t env prev).2.1 = Status.done ∨
      (moveStep stopF rc idx t env prev).2.1 = Status.failed) := by
  have hf0 := fineStep_no_stop stopF h rc idx env
  have hf1 := fineStep_no_stop stopF h (rc + 1) idx env
  rw [moveStep.eq_def]
  rcases prev with _ | pcm <;>
    cases hmv : env.moveOk <;> cases hal : env.alignLowOk <;>
      try cases hb : (decide (pcm.1 ≠ t.coords) || !pcm.2)
  all_goals simp_all [h]

/-- Helper: with the cancellation flag never set, one loop iteration
never `break`s and leaves the task's group in a terminal state (`done` or
`failed`). -/
theorem taskStep_no_stop (stopF : ℕ → Bool) (h : ∀ n, stopF n = false)
    (rc idx : ℕ) (t : Task) (env : HWEnv) (prev : Option (Coords × Bool)) :
    (taskStep stopF rc idx t env prev).2.2.1 = false ∧
    ((taskStep stopF rc idx t env prev).2.1 = Status.done ∨
      (taskStep stopF rc idx t env prev).2.1 = Status.failed) := by
  have hm1 := moveStep_no_stop stopF h (rc + 1) idx t env prev
  have hm2 := moveStep_no_stop stopF h (rc + 2) idx t env prev
  rw [taskStep.eq_def]
  by_cases hd : 0 < t.pattern_group.delay <;>
    simp only [h, hd, Bool.false_eq_true, if_true, if_false, ite_true,
      ite_false] <;>
    first
      | exact hm1
      | exact hm2

/-- Helper: with the cancellation flag never set, a task all of whose own
hardware calls succeed ends `done`, whatever the neighbouring tasks did. -/
theorem taskStep_all_ok (stopF : ℕ → Bool) (h : ∀ n, stopF n = false)
    (rc idx : ℕ) (t : Task) (env : HWEnv) (prev : Option (Coords × Bool))
    (hmv : env.moveOk = true) (hal : env.alignLowOk = true)
    (ham : env.alignMillOk = true) (hml : env.millOk = true) :
    (taskStep stopF rc idx t env prev).2.1 = Status.done ∧
    (taskStep stopF rc idx t env prev).2.2.1 = false := by
  simp only [taskStep, moveStep, fineStep, h, hmv, hal, ham, hml]
  split_ifs <;> simp_all

/-- C5: with no cancellation, the milling loop attempts every task — a
per-task failure (stage move, coarse or fine alignment, or milling) marks
that task's group `failed` and the loop moves on: the final status list
covers all tasks, every entry is terminal (`done` or `failed`), and a
task all of whose own hardware calls succeed is marked `done` regardless
of any other task's failures. -/
theorem runLoop_failures_isolated (stopF : ℕ → Bool)
    (h : ∀ n, stopF n = false) :
    ∀ (tasks : List (Task × HWEnv)) (idx rc : ℕ)
      (prev : Option (Coords × Bool)),
      (runLoop stopF tasks idx rc prev).2.length = tasks.length ∧
      (∀ s ∈ (runLoop stopF tasks idx rc prev).2,
        s = some Status.done ∨ s = some Status.failed) ∧
      ∀ (i : ℕ) (t : Task) (env : HWEnv),
        tasks.get? i = some (t, env) → env.moveOk = true →
        env.alignLowOk = true → env.alignMillOk = true →
        env.millOk = true →
        (runLoop stopF tasks idx rc prev).2.get? i =
          some (some Status.done) := by
  intro tasks
  induction tasks with
  | nil =>
      intro idx rc prev
      refine ⟨by simp [runLoop], by simp [runLoop], ?_⟩
      intro i t env hget
      cases hget
  | cons te rest ih =>
      intro idx rc prev
      obtain ⟨t, env⟩ := te
      have hs := taskStep_no_stop stopF h rc idx t env prev
      rw [runLoop]
      simp only [hs.1, Bool.false_eq_true, if_false]
      have ihr := ih (idx + 1) (taskStep stopF rc idx t env prev).2.2.2.1
        (some (t.coords, (taskStep stopF rc idx t env prev).2.2.2.2))
      refine ⟨by simp [ihr.1], ?_, ?_⟩
      · intro s hsmem
        rcases List.mem_cons.mp hsmem with hhead | htail
        · rcases hs.2 with hdone | hfail
          · exact Or.inl (by rw [hhead, hdone])
          · exact Or.inr (by rw [hhead, hfail])
        · exact ihr.2.1 s htail
      · intro i t0 env0 hget hmv hal ham hml
        cases i with
        | zero =>
            have hte : t = t0 ∧ env = env0 := by
              simpa [Prod.ext_iff] using hget
            obtain ⟨h1, h2⟩ := hte
            subst h2
            have hok := taskStep_all_ok stopF h rc idx t env prev hmv hal
              ham hml
            simp [hok.1]
        | succ i0 =>
            have hget0 : rest.get? i0 = some (t0, env0) := by
              simpa using hget
            simpa using ihr.2.2 i0 t0 env0 hget0 hmv hal ham hml

/-- Witness for the failure-isolation theorem: three tasks at one
position where the second task's fine alignment fails — the statuses come
out exactly `done`, `failed`, `done`: all three tasks were attempted and
only the failing task's group was marked `failed`. -/
theorem runLoop_failures_isolated_witness :
    (runLoop (fun _ => false)
        [(⟨⟨[0], 0, (0, 0, 0), 0, 0, some Status.pending⟩, ⟨0, 0, 0, 0, 0⟩,
            none, 0, 0⟩, ⟨true, true, true, true⟩),
          (⟨⟨[1], 0, (0, 0, 0), 0, 0, some Status.pending⟩, ⟨0, 0, 0, 0, 0⟩,
            none, 0, 0⟩, ⟨true, true, false, true⟩),
          (⟨⟨[2], 0, (0, 0, 0), 0, 0, some Status.pending⟩, ⟨0, 0, 0, 0, 0⟩,
            none, 0, 0⟩, ⟨true, true, true, true⟩)] 0 0 none).2.length =
      3 ∧
    (∀ s ∈ (runLoop (fun _ => false)
        [(⟨⟨[0], 0, (0, 0, 0), 0, 0, some Status.pending⟩, ⟨0, 0, 0, 0, 0⟩,
            none, 0, 0⟩, ⟨true, true, true, true⟩),
          (⟨⟨[1], 0, (0, 0, 0), 0, 0, some Status.pending⟩, ⟨0, 0, 0, 0, 0⟩,
            none, 0, 0⟩, ⟨true, true, false, true⟩),
          (⟨⟨[2], 0, (0, 0, 0), 0, 0, some Status.pending⟩, ⟨0, 0, 0, 0, 0⟩,
            none, 0, 0⟩, ⟨true, true, true, true⟩)] 0 0 none).2,
      s = some Status.done ∨ s = some Status.failed) ∧
    (runLoop (fun _ => false)
        [(⟨⟨[0], 0, (0, 0, 0), 0, 0, some Status.pending⟩, ⟨0, 0, 0, 0, 0⟩,
            none, 0, 0⟩, ⟨true, true, true, true⟩),
          (⟨⟨[1], 0, (0, 0, 0), 0, 0, some Status.pending⟩, ⟨0, 0, 0, 0, 0⟩,
            none, 0, 0⟩, ⟨true, true, false, true⟩),
          (⟨⟨[2], 0, (0, 0, 0), 0, 0, some Status.pending⟩, ⟨0, 0, 0, 0, 0⟩,
            none, 0, 0⟩, ⟨true, true, true, true⟩)] 0 0 none).2 =
      [some Status.done, some Status.failed, some Status.done] := by
  have h := runLoop_failures_isolated (fun _ => false) (fun _ => rfl)
    [(⟨⟨[0], 0, (0, 0, 0), 0, 0, some Status.pending⟩, ⟨0, 0, 0, 0, 0⟩,
        none, 0, 0⟩, ⟨true, true, true, true⟩),
      (⟨⟨[1], 0, (0, 0, 0), 0, 0, some Status.pending⟩, ⟨0, 0, 0, 0, 0⟩,
        none, 0, 0⟩, ⟨true, true, false, true⟩),
      (⟨⟨[2], 0, (0, 0, 0), 0, 0, some Status.pending⟩, ⟨0, 0, 0, 0, 0⟩,
        none, 0, 0⟩, ⟨true, true, true, true⟩)] 0 0 none
  exact ⟨h.1, h.2.1, by rfl⟩

/-- C6: when a task has a positive delay, the loop reads the cancellation
flag before the sleep (the loop-top check) and again right after it; if
the flag is seen set at the post-sleep check, that task's group is marked
`failed`, the loop breaks, and no subsequent task is started (the
remaining groups keep the status they entered with and no further events
are emitted). -/
theorem runLoop_cancel_during_sleep (stopF : ℕ → Bool) (t : Task)
    (env : HWEnv) (rest : List (Task × HWEnv)) (idx rc : ℕ)
    (prev : Option (Coords × Bool)) (hd : 0 < t.pattern_group.delay)
    (h0 : stopF rc = false) (h1 : stopF (rc + 1) = true) :
    runLoop stopF ((t, env) :: rest) idx rc prev =
      ([Ev.checkStop false, Ev.setStatus idx Status.busy] ++
        ((if MAX_DELAY_NO_HOME < t.pattern_group.delay then [Ev.sleepMode]
            else []) ++ [Ev.sleepSecs t.pattern_group.delay]) ++
        [Ev.checkStop true, Ev.setStatus idx Status.failed],
        some Status.failed ::
          rest.map (fun te => te.1.pattern_group.milled_status)) := by
  rw [runLoop]
  simp [taskStep, h0, h1, hd]

/-- Witness for the cancel-during-sleep theorem: the flag is set at read
index 1 (during the first task's 5-second sleep); the first task ends
`failed`, the second is never started and stays `pending`. -/
theorem runLoop_cancel_during_sleep_witness :
    runLoop (fun n => decide (n = 1))
        [(⟨⟨[0], 0, (0, 0, 0), 0, 5, some Status.pending⟩, ⟨0, 0, 0, 0, 0⟩,
            none, 0, 0⟩, ⟨true, true, true, true⟩),
          (⟨⟨[1], 0, (0, 0, 0), 0, 0, some Status.pending⟩, ⟨0, 0, 0, 0, 0⟩,
            none, 0, 1⟩, ⟨true, true, true, true⟩)] 0 0 none =
      ([Ev.checkStop false, Ev.setStatus 0 Status.busy] ++
        ((if MAX_DELAY_NO_HOME <
              (⟨⟨[0], 0, (0, 0, 0), 0, 5, some Status.pending⟩,
                  ⟨0, 0, 0, 0, 0⟩, none, 0,
                  0⟩ : Task).pattern_group.delay then
            [Ev.sleepMode]
          else []) ++ [Ev.sleepSecs 5]) ++
        [Ev.checkStop true, Ev.setStatus 0 Status.failed],
        some Status.failed :: [some Status.pending]) := by
  exact runLoop_cancel_during_sleep (fun n => decide (n = 1)) _ _ _ 0 0 none
    (by decide) (by decide) (by decide)

/-- Folding `max` over the sequential groups never goes below the
accumulator. -/
theorem foldl_max_ge_acc (l : List PatternGroup) (acc : ℕ) :
    acc ≤ l.foldl (fun a pg => max a pg.sequential_group) acc := by
  induction l generalizing acc with
  | nil => exact le_refl acc
  | cons g rest ih =>
      exact le_trans (le_max_left acc g.sequential_group) (ih _)

/-- Folding `max` over the sequential groups dominates every group. -/
theorem foldl_max_ge_mem (l : List PatternGroup) (acc : ℕ) :
    ∀ g ∈ l,
      g.sequential_group ≤
        l.foldl (fun a pg => max a pg.sequential_group) acc := by
  induction l generalizing acc with
  | nil => intro g hg; cases hg
  | cons g0 rest ih =>
      intro g hg
      rcases List.mem_cons.mp hg with he | ht
      · subst he
        exact le_trans (le_max_right acc g.sequential_group)
          (foldl_max_ge_acc rest _)
      · exact ih _ g ht

/-- The outer fold of `max_sequential_group` never goes below the
accumulator. -/
theorem posfold_ge_acc (ps : List Position) (acc : ℕ) :
    acc ≤
      ps.foldl
        (fun a pos =>
          pos.patterns.foldl (fun b pg => max b pg.sequential_group) a)
        acc := by
  induction ps generalizing acc with
  | nil => exact le_refl acc
  | cons p rest ih =>
      exact le_trans (foldl_max_ge_acc p.patterns acc) (ih _)

/-- Every pattern group's sequential group is covered by
`max_sequential_group` (AmFibia.py lines 3202-3209). -/
theorem seq_le_max_sequential_group (ps : List Position) :
    ∀ pos ∈ ps, ∀ g ∈ pos.patterns,
      g.sequential_group ≤ max_sequential_group ps := by
  unfold max_sequential_group
  suffices h : ∀ (acc : ℕ), ∀ pos ∈ ps, ∀ g ∈ pos.patterns,
      g.sequential_group ≤
        ps.foldl
          (fun a pos =>
            pos.patterns.foldl (fun b pg => max b pg.sequential_group) a)
          acc from h 0
  induction ps with
  | nil => intro acc pos hp; cases hp
  | cons p rest ih =>
      intro acc pos hp g hg
      rcases List.mem_cons.mp hp with he | ht
      · subst he
        exact le_trans (foldl_max_ge_mem pos.patterns acc g hg)
          (posfold_ge_acc rest _)
      · exact ih _ pos ht g hg

/-- Every task emitted by the inner group scan carries the scanned
sequential group and position index, and references a member group that
is non-empty and pending. -/
theorem tasksForGroups_facts (sg i : ℕ) (pos : Position) :
    ∀ (l : List PatternGroup) (ts : List Task),
      tasksForGroups sg i pos l = some ts →
      ∀ t ∈ ts, t.sequential_group = sg ∧ t.position_index = i ∧
        t.pattern_group ∈ l ∧ t.pattern_group.patterns ≠ [] ∧
        t.pattern_group.milled_status = some Status.pending := by
  intro l
  induction l with
  | nil =>
      intro ts h t ht
      rw [tasksForGroups] at h
      cases h
      cases ht
  | cons pg rest ih =>
      intro ts h t ht
      rw [tasksForGroups] at h
      by_cases h1 : pg.sequential_group ≠ sg
      · rw [if_pos h1] at h
        have hf := ih ts h t ht
        exact ⟨hf.1, hf.2.1, List.mem_cons_of_mem pg hf.2.2.1, hf.2.2.2⟩
      · rw [if_neg h1] at h
        by_cases h2 : pg.patterns.length = 0
        · rw [if_pos h2] at h
          have hf := ih ts h t ht
          exact ⟨hf.1, hf.2.1, List.mem_cons_of_mem pg hf.2.2.1, hf.2.2.2⟩
        · rw [if_neg h2] at h
          cases hms : pg.milled_status with
          | none => simp only [hms] at h; cases h
          | some st =>
              simp only [hms] at h
              by_cases h3 : st ≠ Status.pending
              · rw [if_pos h3] at h
                have hf := ih ts h t ht
                exact ⟨hf.1, hf.2.1, List.mem_cons_of_mem pg hf.2.2.1,
                  hf.2.2.2⟩
              · rw [if_neg h3] at h
                push_neg at h3
                cases him : pos.image with
                | none => simp only [him] at h; cases h
                | some im =>
                    simp only [him] at h
                    obtain ⟨ts', hrec, hts⟩ := Option.map_eq_some'.mp h
                    subst hts
                    rcases List.mem_cons.mp ht with he | htl
                    · subst he
                      refine ⟨rfl, rfl, List.mem_cons_self pg rest, ?_,
                        by rw [hms, h3]⟩
                      intro hnil
                      exact h2 (by rw [hnil]; rfl)
                    · have hf := ih ts' hrec t htl
                      exact ⟨hf.1, hf.2.1, List.mem_cons_of_mem pg hf.2.2.1,
                        hf.2.2.2⟩

/-- Every non-empty pending group of the scanned sequential group gets a
task emitted by the inner group scan. -/
theorem tasksForGroups_complete (sg i : ℕ) (pos : Position) :
    ∀ (l : List PatternGroup) (ts : List Task),
      tasksForGroups sg i pos l = some ts →
      ∀ g ∈ l, g.sequential_group = sg → g.patterns ≠ [] →
        g.milled_status = some Status.pending →
        ∃ t ∈ ts, t.pattern_group = g ∧ t.position_index = i := by
  intro l
  induction l with
  | nil => intro ts h g hg; cases hg
  | cons pg rest ih =>
      intro ts h g hg hseq hne hpend
      rw [tasksForGroups] at h
      rcases List.mem_cons.mp hg with he | htl
      · subst he
        rw [if_neg (by rw [hseq]; simp),
          if_neg (by simpa [List.length_eq_zero] using hne)] at h
        simp only [hpend] at h
        rw [if_neg (by simp)] at h
        cases him : pos.image with
        | none => simp only [him] at h; cases h
        | some im =>
            simp only [him] at h
            obtain ⟨ts', hrec, hts⟩ := Option.map_eq_some'.mp h
            subst hts
            exact ⟨_, List.mem_cons_self _ _, rfl, rfl⟩
      · by_cases h1 : pg.sequential_group ≠ sg
        · rw [if_pos h1] at h
          exact ih ts h g htl hseq hne hpend
        · rw [if_neg h1] at h
          by_cases h2 : pg.patterns.length = 0
          · rw [if_pos h2] at h
            exact ih ts h g htl hseq hne hpend
          · rw [if_neg h2] at h
            cases hms : pg.milled_status with
            | none => simp only [hms] at h; cases h
            | some st =>
                simp only [hms] at h
                by_cases h3 : st ≠ Status.pending
                · rw [if_pos h3] at h
                  exact ih ts h g htl hseq hne hpend
                · rw [if_neg h3] at h
                  cases him : pos.image with
                  | none => simp only [him] at h; cases h
                  | some im =>
                      simp only [him] at h
                      obtain ⟨ts', hrec, hts⟩ := Option.map_eq_some'.mp h
                      subst hts
                      obtain ⟨t, htmem, htg, hti⟩ :=
                        ih ts' hrec g htl hseq hne hpend
                      exact ⟨t, List.mem_cons_of_mem _ htmem, htg, hti⟩

/-- Every task emitted by the per-sequential-group position scan carries
that sequential group and a position index at or past the start index,
and the position indices are nondecreasing along the emitted list. -/
theorem tasksForSg_facts (sg : ℕ) :
    ∀ (l : List Position) (i : ℕ) (ts : List Task),
      tasksForSg sg l i = some ts →
      (∀ t ∈ ts, t.sequential_group = sg ∧ i ≤ t.position_index) ∧
      ts.Pairwise (fun a b => a.position_index ≤ b.position_index) := by
  intro l
  induction l with
  | nil =>
      intro i ts h
      rw [tasksForSg] at h
      cases h
      exact ⟨fun t ht => absurd ht (List.not_mem_nil t), List.Pairwise.nil⟩
  | cons pos rest ih =>
      intro i ts h
      rw [tasksForSg] at h
      cases him : pos.image with
      | none => simp only [him] at h; cases h
      | some im =>
          simp only [him] at h
          cases hg : tasksForGroups sg i pos pos.patterns with
          | none => simp only [hg] at h; cases h
          | some ts1 =>
              simp only [hg] at h
              obtain ⟨ts2, hrec, hts⟩ := Option.map_eq_some'.mp h
              subst hts
              have hf1 := tasksForGroups_facts sg i pos pos.patterns ts1 hg
              have hf2 := ih (i + 1) ts2 hrec
              constructor
              · intro t ht
                rcases List.mem_append.mp ht with h1 | h2
                · exact ⟨(hf1 t h1).1, by rw [(hf1 t h1).2.1]⟩
                · exact ⟨(hf2.1 t h2).1,
                    le_trans (Nat.le_succ i) (hf2.1 t h2).2⟩
              · rw [List.pairwise_append]
                refine ⟨?_, hf2.2, ?_⟩
                · exact List.pairwise_of_forall_mem_list
                    (fun a ha b hb =>
                      le_of_eq ((hf1 a ha).2.1.trans (hf1 b hb).2.1.symm))
                · intro a ha b hb
                  rw [(hf1 a ha).2.1]
                  exact le_trans (Nat.le_succ i) (hf2.1 b hb).2

/-- Every eligible group of the `j`-th scanned position gets a task with
position index `i0 + j` emitted by the per-sequential-group scan. -/
theorem tasksForSg_complete (sg : ℕ) :
    ∀ (l : List Position) (i0 j : ℕ) (ts : List Task) (pos : Position),
      tasksForSg sg l i0 = some ts →
      l.get? j = some pos →
      ∀ g ∈ pos.patterns, g.sequential_group = sg → g.patterns ≠ [] →
        g.milled_status = some Status.pending →
        ∃ t ∈ ts, t.pattern_group = g ∧ t.position_index = i0 + j := by
  intro l
  induction l with
  | nil => intro i0 j ts pos h hget; cases hget
  | cons p rest ih =>
      intro i0 j ts pos h hget g hg hseq hne hpend
      rw [tasksForSg] at h
      cases him : p.image with
      | none => simp only [him] at h; cases h
      | some im =>
          simp only [him] at h
          cases hgs : tasksForGroups sg i0 p p.patterns with
          | none => simp only [hgs] at h; cases h
          | some ts1 =>
              simp only [hgs] at h
              obtain ⟨ts2, hrec, hts⟩ := Option.map_eq_some'.mp h
              subst hts
              cases j with
              | zero =>
                  have hpos : p = pos := by
                    simpa using hget
                  subst hpos
                  obtain ⟨t, htmem, htg, hti⟩ :=
                    tasksForGroups_complete sg i0 p p.patterns ts1 hgs g hg
                      hseq hne hpend
                  exact ⟨t, List.mem_append_left ts2 htmem, htg, by
                    rw [hti]; omega⟩
              | succ j0 =>
                  have hget0 : rest.get? j0 = some pos := by
                    simpa using hget
                  obtain ⟨t, htmem, htg, hti⟩ :=
                    ih (i0 + 1) j0 ts2 pos hrec hget0 g hg hseq hne hpend
                  refine ⟨t, List.mem_append_right ts1 htmem, htg, by
                    rw [hti]; omega⟩

/-- Group-level facts transported through the position scan: every
emitted task references a non-empty pending group. -/
theorem tasksForSg_member_group_facts (sg : ℕ) :
    ∀ (l : List Position) (i : ℕ) (ts : List Task),
      tasksForSg sg l i = some ts →
      ∀ t ∈ ts, t.pattern_group.patterns ≠ [] ∧
        t.pattern_group.milled_status = some Status.pending := by
  intro l
  induction l with
  | nil =>
      intro i ts h t ht
      rw [tasksForSg] at h
      cases h
      cases ht
  | cons pos rest ih =>
      intro i ts h t ht
      rw [tasksForSg] at h
      cases him : pos.image with
      | none => simp only [him] at h; cases h
      | some im =>
          simp only [him] at h
          cases hg : tasksForGroups sg i pos pos.patterns with
          | none => simp only [hg] at h; cases h
          | some ts1 =>
              simp only [hg] at h
              obtain ⟨ts2, hrec, hts⟩ := Option.map_eq_some'.mp h
              subst hts
              rcases List.mem_append.mp ht with h1 | h2
              · exact (tasksForGroups_facts sg i pos pos.patterns ts1 hg t
                  h1).2.2.2
              · exact ih (i + 1) ts2 hrec t h2

/-- Tasks produced by the outer sequential-group loop carry sequential
groups from the scanned list, and when that list is strictly increasing
the produced list is sorted by (sequential group, position index). -/
theorem buildTaskListAux_facts (ps : List Position) :
    ∀ (sgs : List ℕ) (ts : List Task),
      buildTaskListAux ps sgs = some ts →
      (∀ t ∈ ts, t.sequential_group ∈ sgs ∧ t.pattern_group.patterns ≠ [] ∧
        t.pattern_group.milled_status = some Status.pending) ∧
      (sgs.Pairwise (· < ·) →
        ts.Pairwise (fun a b =>
          a.sequential_group < b.sequential_group ∨
            (a.sequential_group = b.sequential_group ∧
              a.position_index ≤ b.position_index))) := by
  intro sgs
  induction sgs with
  | nil =>
      intro ts h
      rw [buildTaskListAux] at h
      cases h
      exact ⟨fun t ht => absurd ht (List.not_mem_nil t),
        fun _ => List.Pairwise.nil⟩
  | cons sg sgs ih =>
      intro ts h
      rw [buildTaskListAux] at h
      cases hsg : tasksForSg sg ps 0 with
      | none => simp only [hsg] at h; cases h
      | some ts1 =>
          simp only [hsg] at h
          obtain ⟨ts2, hrec, hts⟩ := Option.map_eq_some'.mp h
          subst hts
          have hf1 := tasksForSg_facts sg ps 0 ts1 hsg
          have hfg : ∀ t ∈ ts1, t.pattern_group.patterns ≠ [] ∧
              t.pattern_group.milled_status = some Status.pending := by
            intro t ht
            -- re-derive from the group-level facts via the position scan
            exact tasksForSg_member_group_facts sg ps 0 ts1 hsg t ht
          have hf2 := ih ts2 hrec
          constructor
          · intro t ht
            rcases List.mem_append.mp ht with h1 | h2
            · exact ⟨by rw [(hf1.1 t h1).1]; exact
                List.mem_cons_self sg sgs, hfg t h1⟩
            · exact ⟨List.mem_cons_of_mem sg (hf2.1 t h2).1,
                (hf2.1 t h2).2⟩
          · intro hsorted
            have hlt : ∀ x ∈ sgs, sg < x :=
              fun x hx => (List.pairwise_cons.mp hsorted).1 x hx
            have hsorted2 := (List.pairwise_cons.mp hsorted).2
            rw [List.pairwise_append]
            refine ⟨?_, hf2.2 hsorted2, ?_⟩
            · exact List.Pairwise.imp_of_mem
                (fun {a b} ha hb hab =>
                  Or.inr ⟨(hf1.1 a ha).1.trans (hf1.1 b hb).1.symm, hab⟩)
                hf1.2
            · intro a ha b hb
              left
              rw [(hf1.1 a ha).1]
              exact hlt b.sequential_group (hf2.1 b hb).1

/-- Every sequential group scanned by the outer loop contributes its full
per-group task block to the final list. -/
theorem buildTaskListAux_complete (ps : List Position) :
    ∀ (sgs : List ℕ) (ts : List Task),
      buildTaskListAux ps sgs = some ts →
      ∀ sg ∈ sgs, ∃ tsg, tasksForSg sg ps 0 = some tsg ∧
        ∀ t ∈ tsg, t ∈ ts := by
  intro sgs
  induction sgs with
  | nil => intro ts h sg hsg; cases hsg
  | cons a tail ih =>
      intro ts h sg hsg
      rw [buildTaskListAux] at h
      cases ha : tasksForSg a ps 0 with
      | none => simp only [ha] at h; cases h
      | some ts1 =>
          simp only [ha] at h
          obtain ⟨ts2, hrec, hts⟩ := Option.map_eq_some'.mp h
          subst hts
          rcases List.mem_cons.mp hsg with he | htail
          · subst he
            exact ⟨ts1, ha, fun t ht => List.mem_append_left ts2 ht⟩
          · obtain ⟨tsg, htsg, hsub⟩ := ih ts2 hrec sg htail
            exact ⟨tsg, htsg,
              fun t ht => List.mem_append_right ts1 (hsub t ht)⟩

/-- C2: the task list is ordered by ascending sequential-group tier, and
within a tier by the positions' stored order: any earlier task has a
strictly smaller sequential group, or the same sequential group and a
position index no larger than any later task's. -/
theorem build_task_list_ordered (ps : List Position) (ts : List Task)
    (h : build_task_list ps = some ts) :
    ts.Pairwise (fun a b =>
      a.sequential_group < b.sequential_group ∨
        (a.sequential_group = b.sequential_group ∧
          a.position_index ≤ b.position_index)) := by
  have hf := buildTaskListAux_facts ps
    (List.range (max_sequential_group ps + 1)) ts h
  exact hf.2 (List.pairwise_lt_range _)

/-- Witness for the task-ordering theorem, on the spec's own scenario:
position 0 carries groups of sequential groups 0 and 1, position 1 a
group of sequential group 0; the built list is
`[P0.seq0, P1.seq0, P0.seq1]` and is sorted as claimed. -/
theorem build_task_list_ordered_witness :
    List.Pairwise
      (fun a b : Task =>
        a.sequential_group < b.sequential_group ∨
          (a.sequential_group = b.sequential_group ∧
            a.position_index ≤ b.position_index))
      [⟨⟨[0], 0, (0, 0, 0), 0, 0, some Status.pending⟩, ⟨0, 0, 0, 0, 0⟩,
          none, 0, 0⟩,
        ⟨⟨[2], 0, (0, 0, 0), 0, 0, some Status.pending⟩, ⟨1, 0, 0, 0, 0⟩,
          none, 0, 1⟩,
        ⟨⟨[1], 0, (0, 0, 0), 1, 0, some Status.pending⟩, ⟨0, 0, 0, 0, 0⟩,
          none, 1, 0⟩] := by
  exact build_task_list_ordered
    [⟨⟨0, 0, 0, 0, 0⟩, some ⟨2, 2⟩, none,
        [⟨[0], 0, (0, 0, 0), 0, 0, some Status.pending⟩,
          ⟨[1], 0, (0, 0, 0), 1, 0, some Status.pending⟩]⟩,
      ⟨⟨1, 0, 0, 0, 0⟩, some ⟨2, 2⟩, none,
        [⟨[2], 0, (0, 0, 0), 0, 0, some Status.pending⟩]⟩]
    [⟨⟨[0], 0, (0, 0, 0), 0, 0, some Status.pending⟩, ⟨0, 0, 0, 0, 0⟩,
        none, 0, 0⟩,
      ⟨⟨[2], 0, (0, 0, 0), 0, 0, some Status.pending⟩, ⟨1, 0, 0, 0, 0⟩,
        none, 0, 1⟩,
      ⟨⟨[1], 0, (0, 0, 0), 1, 0, some Status.pending⟩, ⟨0, 0, 0, 0, 0⟩,
        none, 1, 0⟩]
    (by rfl)

/-- C3: `build_task_list` emits a task for a pattern group exactly when
the group's pattern mapping is non-empty and its status reads `pending`:
every emitted task references such a group, and every such group on any
listed position is referenced by some emitted task. -/
theorem build_task_list_pending_filter (ps : List Position)
    (ts : List Task) (h : build_task_list ps = some ts) :
    (∀ t ∈ ts, t.pattern_group.patterns ≠ [] ∧
      t.pattern_group.milled_status = some Status.pending) ∧
    ∀ i pos, ps.get? i = some pos → ∀ g ∈ pos.patterns,
      g.patterns ≠ [] → g.milled_status = some Status.pending →
      ∃ t ∈ ts, t.position_index = i ∧ t.pattern_group = g := by
  have hf := buildTaskListAux_facts ps
    (List.range (max_sequential_group ps + 1)) ts h
  refine ⟨fun t ht => (hf.1 t ht).2, ?_⟩
  intro i pos hget g hg hne hpend
  have hmemps : pos ∈ ps := List.get?_mem hget
  have hle : g.sequential_group ≤ max_sequential_group ps :=
    seq_le_max_sequential_group ps pos hmemps g hg
  have hmem : g.sequential_group ∈
      List.range (max_sequential_group ps + 1) :=
    List.mem_range.mpr (by omega)
  obtain ⟨tsg, htsg, hsub⟩ :=
    buildTaskListAux_complete ps _ ts h g.sequential_group hmem
  obtain ⟨t, htmem, htg, hti⟩ := tasksForSg_complete g.sequential_group ps
    0 i tsg pos htsg hget g hg rfl hne hpend
  exact ⟨t, hsub t htmem, by rw [hti]; omega, htg⟩

/-- Witness for the pending-filter theorem: one position with a pending
group and a `done` group — the built list holds exactly a task for the
pending group, and the `done` group is excluded. -/
theorem build_task_list_pending_filter_witness :
    (∀ t ∈
        [(⟨⟨[5], 0, (0, 0, 0), 0, 0, some Status.pending⟩, ⟨0, 0, 0, 0, 0⟩,
            none, 0, 0⟩ : Task)],
      t.pattern_group.patterns ≠ [] ∧
        t.pattern_group.milled_status = some Status.pending) ∧
    ∃ t ∈
        [(⟨⟨[5], 0, (0, 0, 0), 0, 0, some Status.pending⟩, ⟨0, 0, 0, 0, 0⟩,
            none, 0, 0⟩ : Task)],
      t.position_index = 0 ∧
        t.pattern_group = ⟨[5], 0, (0, 0, 0), 0, 0, some Status.pending⟩ := by
  have h := build_task_list_pending_filter
    [⟨⟨0, 0, 0, 0, 0⟩, some ⟨2, 2⟩, none,
        [⟨[5], 0, (0, 0, 0), 0, 0, some Status.pending⟩,
          ⟨[6], 0, (0, 0, 0), 0, 0, some Status.done⟩]⟩]
    [⟨⟨[5], 0, (0, 0, 0), 0, 0, some Status.pending⟩, ⟨0, 0, 0, 0, 0⟩,
        none, 0, 0⟩]
    (by rfl)
  refine ⟨h.1, ?_⟩
  exact h.2 0 _ rfl ⟨[5], 0, (0, 0, 0), 0, 0, some Status.pending⟩
    (by simp) (by simp) rfl

end AmFIBia
